import Mathlib

/-!
Shallow embedding of the region-selection engine of the filter-regions
package (src/filter_regions/__main__.py) and theorems checking its
natural-language specification against it.

Conventions of the embedding:
* scores are rational numbers, coordinates are integers, chromosomes are
  naturals (natural-sort order of chromosome names becomes numeric order);
* pandas tables are lists of rows; missing values produced by Series.shift
  are modelled by dropping the affected rows exactly where the source calls
  dropna;
* Python bisect.bisect_right is modelled by the same binary search, faithful
  also on unsorted input arrays;
* the backward trace of the WIS selector is a while loop in the source; it is
  modelled with explicit fuel n, which is enough iterations whenever every
  predecessor index is smaller than its interval index (the loop can fail to
  terminate otherwise, which the fuel models by truncation).
-/

namespace FilterRegions

/-- Maximum number of accepted elements in the greedy sweep
(source line 21: MAX_ELEMENTS = 100_000). -/
def MAX_ELEMENTS : ℕ := 100000

/-- Number of rows the Start column is shifted down by: window_bins // 2
(source lines 203 and 272). -/
def leftShift (w : ℕ) : ℕ := w / 2

/-- Number of rows the End column is shifted up by: window_bins // 2 for odd
window sizes, window_bins // 2 - 1 for even ones (source lines 204-208
and 273-277). -/
def rightShift (w : ℕ) : ℕ := if w % 2 = 1 then w / 2 else w / 2 - 1

/-- Insertion of an element into a list relative to a boolean comparison,
the helper of the sorting model. -/
def insertByB (le : α → α → Bool) (x : α) : List α → List α
  | [] => [x]
  | y :: ys => if le x y then x :: y :: ys else y :: insertByB le x ys

/-- Insertion sort relative to a boolean comparison. It models
pandas.sort_values: the source sorts with an unstable quicksort, so any
order consistent with the keys is a faithful model; theorems that depend on
the order among tied keys are stated for arbitrary candidate orders instead. -/
def sortByB (le : α → α → Bool) : List α → List α
  | [] => []
  | x :: xs => insertByB le x (sortByB le xs)

theorem mem_insertByB {le : α → α → Bool} {x a : α} {l : List α} :
    a ∈ insertByB le x l ↔ a = x ∨ a ∈ l := by
  induction l with
  | nil => simp [insertByB]
  | cons y ys ih =>
      by_cases h : le x y
      · simp [insertByB, h]
      · simp only [insertByB, if_neg h, List.mem_cons, ih]
        tauto

theorem mem_sortByB {le : α → α → Bool} {a : α} {l : List α} :
    a ∈ sortByB le l ↔ a ∈ l := by
  induction l with
  | nil => simp [sortByB]
  | cons x xs ih => simp [sortByB, mem_insertByB, ih]

theorem length_insertByB (le : α → α → Bool) (x : α) (l : List α) :
    (insertByB le x l).length = l.length + 1 := by
  induction l with
  | nil => rfl
  | cons y ys ih =>
      by_cases h : le x y <;> simp [insertByB, h, ih]

theorem length_sortByB (le : α → α → Bool) (l : List α) :
    (sortByB le l).length = l.length := by
  induction l with
  | nil => rfl
  | cons x xs ih => simp [sortByB, length_insertByB, ih]

/-- Effective window size in bins. Models Filter.__init__ line 70
(window_bins if window_bins else None) composed with Filter.read lines
144-148 (self.window_bins if self.window_bins else
(bin_size + exclusion_size) // bin_size). Python truthiness sends both None
and 0 to the derived value, while every other integer, negative ones
included, is used verbatim. The source performs no validation on this path
and can raise no error here, hence the result is always Except.ok. -/
def effectiveWindowBins (override : Option ℤ) (bin_size exclusion_size : ℤ) :
    Except String ℤ :=
  match override with
  | none => Except.ok (Int.fdiv (bin_size + exclusion_size) bin_size)
  | some v =>
      if v = 0 then Except.ok (Int.fdiv (bin_size + exclusion_size) bin_size)
      else Except.ok v

/-- Left edge of the exclusion span of candidate j (source lines 320-322):
max(0, j - window_bins // 2), realised here by truncated subtraction. -/
def sweepSpanStart (w j : ℕ) : ℕ := j - w / 2

/-- Exclusive right edge of the exclusion span of candidate j, clamped to n
(source lines 323-336): j + w // 2 + 1 for odd w, j + w // 2 for even w. -/
def sweepSpanStop (w n j : ℕ) : ℕ :=
  if w % 2 = 1 then min (j + w / 2 + 1) n else min (j + w / 2) n

/-- Exclusion span of candidate j as the set of bin positions it claims. -/
def sweepSpan (w n j : ℕ) : Finset ℕ :=
  Finset.Ico (sweepSpanStart w j) (sweepSpanStop w n j)

/-- Greedy sweep loop (source lines 312-340). order is the MethodIdx column
of the priority-sorted candidate table, hits the set of already claimed bin
positions (the boolean hits array of the source), k the remaining capacity
seeded from MAX_ELEMENTS. Returns the accepted MethodIdx values in
acceptance order. -/
def sweepGo (w n : ℕ) : List ℕ → Finset ℕ → ℕ → List ℕ
  | [], _, _ => []
  | j :: rest, hits, k =>
    if k = 0 then []
    else if (sweepSpan w n j ∩ hits).Nonempty then sweepGo w n rest hits k
    else j :: sweepGo w n rest (hits ∪ sweepSpan w n j) (k - 1)

theorem sweepGo_subset (w n : ℕ) (order : List ℕ) (hits : Finset ℕ) (k : ℕ) :
    ∀ j ∈ sweepGo w n order hits k, j ∈ order := by
  induction order generalizing hits k with
  | nil => simp [sweepGo]
  | cons j0 rest ih =>
      intro j hj
      rw [sweepGo] at hj
      by_cases hk : k = 0
      · simp [hk] at hj
      · rw [if_neg hk] at hj
        by_cases hblock : (sweepSpan w n j0 ∩ hits).Nonempty
        · rw [if_pos hblock] at hj
          exact List.mem_cons_of_mem _ (ih hits k j hj)
        · rw [if_neg hblock] at hj
          rcases List.mem_cons.mp hj with h | h
          · exact h ▸ List.mem_cons_self _ _
          · exact List.mem_cons_of_mem _ (ih _ _ j h)

theorem sweepGo_span_disjoint_hits (w n : ℕ) (order : List ℕ)
    (hits : Finset ℕ) (k : ℕ) :
    ∀ j ∈ sweepGo w n order hits k, Disjoint (sweepSpan w n j) hits := by
  induction order generalizing hits k with
  | nil => simp [sweepGo]
  | cons j0 rest ih =>
      intro j hj
      rw [sweepGo] at hj
      by_cases hk : k = 0
      · simp [hk] at hj
      · rw [if_neg hk] at hj
        by_cases hblock : (sweepSpan w n j0 ∩ hits).Nonempty
        · rw [if_pos hblock] at hj
          exact ih hits k j hj
        · rw [if_neg hblock] at hj
          rcases List.mem_cons.mp hj with h | h
          · subst h
            rw [Finset.not_nonempty_iff_eq_empty] at hblock
            exact Finset.disjoint_iff_inter_eq_empty.mpr hblock
          · have := ih _ _ j h
            exact (Finset.disjoint_union_right.mp this).1

theorem sweepGo_spans_pairwise_disjoint (w n : ℕ) (order : List ℕ)
    (hits : Finset ℕ) (k : ℕ) :
    ∀ i ∈ sweepGo w n order hits k, ∀ j ∈ sweepGo w n order hits k,
      i ≠ j → Disjoint (sweepSpan w n i) (sweepSpan w n j) := by
  induction order generalizing hits k with
  | nil => simp [sweepGo]
  | cons j0 rest ih =>
      intro i hi j hj hne
      rw [sweepGo] at hi hj
      by_cases hk : k = 0
      · simp [hk] at hi
      · rw [if_neg hk] at hi hj
        by_cases hblock : (sweepSpan w n j0 ∩ hits).Nonempty
        · rw [if_pos hblock] at hi hj
          exact ih hits k i hi j hj hne
        · rw [if_neg hblock] at hi hj
          rcases List.mem_cons.mp hi with h1 | h1 <;>
            rcases List.mem_cons.mp hj with h2 | h2
          · exact absurd (h1.trans h2.symm) hne
          · subst h1
            have := sweepGo_span_disjoint_hits w n rest _ _ j h2
            exact ((Finset.disjoint_union_right.mp this).2).symm
          · subst h2
            have := sweepGo_span_disjoint_hits w n rest _ _ i h1
            exact (Finset.disjoint_union_right.mp this).2
          · exact ih _ _ i h1 j h2 hne

theorem sweepGo_length_le (w n : ℕ) (order : List ℕ) (hits : Finset ℕ)
    (k : ℕ) : (sweepGo w n order hits k).length ≤ k := by
  induction order generalizing hits k with
  | nil => simp [sweepGo]
  | cons j0 rest ih =>
      rw [sweepGo]
      by_cases hk : k = 0
      · simp [hk]
      · rw [if_neg hk]
        by_cases hblock : (sweepSpan w n j0 ∩ hits).Nonempty
        · rw [if_pos hblock]; exact ih hits k
        · rw [if_neg hblock]
          simp only [List.length_cons]
          have := ih (hits ∪ sweepSpan w n j0) (k - 1)
          omega

/-- C2: in every run of the greedy sweep (pq and maxmean modes alike), for
any two accepted bins at post-shift indices i < j the bin-index distance is
at least window_bins, because a candidate is accepted only when no position
of its exclusion span [max(0, j - left), min(n, j + right + 1)) is already
claimed. Stated for an arbitrary candidate order, which covers every
priority sort and every tie-breaking the unstable pandas sort may choose. -/
theorem sweepGo_separation (w n k : ℕ) (order : List ℕ) (hw : 1 ≤ w)
    (horder : ∀ x ∈ order, x < n) (i j : ℕ)
    (hi : i ∈ sweepGo w n order ∅ k) (hj : j ∈ sweepGo w n order ∅ k)
    (hij : i < j) : i + w ≤ j := by
  have hin : i < n := horder i (sweepGo_subset w n order ∅ k i hi)
  have hjn : j < n := horder j (sweepGo_subset w n order ∅ k j hj)
  have hdisj := sweepGo_spans_pairwise_disjoint w n order ∅ k i hi j hj
    (Nat.ne_of_lt hij)
  by_contra hcon
  push_neg at hcon
  have hx : j - w / 2 ∈ sweepSpan w n i ∧ j - w / 2 ∈ sweepSpan w n j := by
    constructor <;>
    · simp only [sweepSpan, sweepSpanStart, sweepSpanStop, Finset.mem_Ico,
        Nat.min_def]
      split_ifs <;> omega
  exact (Finset.disjoint_left.mp hdisj hx.1) hx.2

/-- Minimum of a score window (pandas rolling min). -/
def winMin : List ℚ → ℚ
  | [] => 0
  | x :: xs => xs.foldl min x

/-- Maximum of a score window (pandas rolling max). -/
def winMax : List ℚ → ℚ
  | [] => 0
  | x :: xs => xs.foldl max x

/-- Sum of a score window (pandas rolling sum). -/
def winSum (l : List ℚ) : ℚ := l.sum

/-- Mean of a score window (pandas rolling mean). -/
def winMean (l : List ℚ) : ℚ := l.sum / l.length

/-- Median of a score window (pandas rolling median: middle element of the
sorted window, or the average of the two middle elements). -/
def winMedian (l : List ℚ) : ℚ :=
  let s := sortByB (fun a b => decide (a ≤ b)) l
  if l.length % 2 = 1 then s.getD (l.length / 2) 0
  else (s.getD (l.length / 2 - 1) 0 + s.getD (l.length / 2) 0) / 2

/-- Sample variance of a score window (pandas rolling var, ddof = 1). For a
window of length 1 the source value is NaN (0 / 0); the candidate table
below drops every row in that case. -/
def winVariance (l : List ℚ) : ℚ :=
  let m := winMean l
  (l.map (fun x => (x - m) ^ 2)).sum / ((l.length : ℚ) - 1)

/-- Quantile of a score window with linear interpolation (pandas rolling
quantile, numpy linear method): for sorted values v and h = q * (len - 1),
the result is v[floor h] + frac h * (v[floor h + 1] - v[floor h]). -/
def winPercentile (q : ℚ) (l : List ℚ) : ℚ :=
  let s := sortByB (fun a b => decide (a ≤ b)) l
  let h := q * ((l.length : ℚ) - 1)
  let fl := (Int.floor h).toNat
  let lo := s.getD fl 0
  let hi := s.getD (min (fl + 1) (l.length - 1)) 0
  lo + (h - Int.floor h) * (hi - lo)

/-- A row of the candidate table that feeds the greedy sweep: the columns of
the dataframe after the half-window shift, the rolling pass and the second
dropna (source lines 267-302), for vector input. -/
structure Cand where
  MethodIdx : ℕ
  OriginalIdx : ℕ
  Start : ℤ
  End : ℤ
  Score : ℚ
  RollingMin : ℚ
  RollingMax : ℚ
  RollingMean : ℚ
  RollingSum : ℚ
  RollingMedian : ℚ
  RollingVariance : ℚ
  RollingPercentile : ℚ
deriving DecidableEq, Repr

/-- Scores surviving the half-window shift and the first dropna
(source lines 272-285): for a length-n vector these are the original rows
with leftShift w <= i < n - rightShift w, reindexed from 0. -/
def trimmedScores (scores : List ℚ) (w : ℕ) : List ℚ :=
  (scores.take (scores.length - rightShift w)).drop (leftShift w)

/-- Candidate row with MethodIdx j. Its centered rolling window of width w
covers trimmed positions j .. j + w - 1, its own score sits at trimmed
position j + leftShift w (original index j + 2 * leftShift w), and its
shifted bin is [OriginalIdx - leftShift w, OriginalIdx + rightShift w + 1). -/
def candAt (scores : List ℚ) (w : ℕ) (pct : ℚ) (j : ℕ) : Cand :=
  let t := trimmedScores scores w
  let win := (t.drop j).take w
  let orig := j + 2 * leftShift w
  { MethodIdx := j
    OriginalIdx := orig
    Start := (orig : ℤ) - (leftShift w : ℤ)
    End := (orig : ℤ) + (rightShift w : ℤ) + 1
    Score := t.getD (j + leftShift w) 0
    RollingMin := winMin win
    RollingMax := winMax win
    RollingMean := winMean win
    RollingSum := winSum win
    RollingMedian := winMedian win
    RollingVariance := winVariance win
    RollingPercentile := winPercentile pct win }

/-- Candidate table after the rolling pass and the second dropna (source
lines 286-302). A row survives only when its centered window of w scores is
complete; for w <= 1 the table is empty (pandas rejects window 0, and for
w = 1 the sample-variance column is NaN in every row, so the dropna at line
295 removes all of them). -/
def maxmeanCands (scores : List ℚ) (w : ℕ) (pct : ℚ) : List Cand :=
  if w ≤ 1 then []
  else (List.range ((trimmedScores scores w).length + 1 - w)).map
    (candAt scores w pct)

/-- Priority comparison of Max-Mean mode (source line 307): sort by
RollingMax, then RollingMean, then Score, each descending. -/
def maxmeanLe (a b : Cand) : Bool :=
  decide (b.RollingMax < a.RollingMax ∨ (b.RollingMax = a.RollingMax ∧
    (b.RollingMean < a.RollingMean ∨ (b.RollingMean = a.RollingMean ∧
      b.Score ≤ a.Score))))

/-- Priority comparison of PQ mode (source line 309): raw Score descending. -/
def pqLe (a b : Cand) : Bool := decide (b.Score ≤ a.Score)

/-- Candidate table sorting of source lines 306-310. -/
def sortCands (pq : Bool) (cs : List Cand) : List Cand :=
  if pq then sortByB pqLe cs else sortByB maxmeanLe cs

/-- Output row of the maxmean/pq pipeline, with preserve_cols semantics for
the columns the claims mention. -/
structure OutRow where
  Start : ℤ
  End : ℤ
  Score : ℚ
  OriginalIdx : ℕ
deriving DecidableEq, Repr

/-- Output-score assignment (source lines 342-355): an if/elif chain on the
aggregation-method string runs in both modes; a string matching no branch
leaves the raw score in place. -/
def applyAgg (aggm : String) (c : Cand) : OutRow :=
  { Start := c.Start
    End := c.End
    OriginalIdx := c.OriginalIdx
    Score :=
      if aggm = "max" then c.RollingMax
      else if aggm = "min" then c.RollingMin
      else if aggm = "mean" then c.RollingMean
      else if aggm = "sum" then c.RollingSum
      else if aggm = "median" then c.RollingMedian
      else if aggm = "variance" then c.RollingVariance
      else if aggm = "percentile" then c.RollingPercentile
      else c.Score }

/-- Final ordering of the selection (source line 357): OriginalIdx
ascending. -/
def origIdxLe (a b : OutRow) : Bool := decide (a.OriginalIdx ≤ b.OriginalIdx)

/-- Full Filter.maxmean pipeline for vector input (source lines 267-365);
the pq flag selects the PQ priority key exactly as Filter.pq does. -/
def maxmeanSelection (pqFlag : Bool) (scores : List ℚ) (w : ℕ)
    (aggm : String) (pct : ℚ) : List OutRow :=
  sortByB origIdxLe
    (((sweepGo w (maxmeanCands scores w pct).length
          ((sortCands pqFlag (maxmeanCands scores w pct)).map Cand.MethodIdx)
          ∅ MAX_ELEMENTS).filterMap
        (fun j => (maxmeanCands scores w pct)[j]?)).map (applyAgg aggm))

/-- Filter.pq (source lines 194-195): maxmean with pq = True. -/
def pqSelection (scores : List ℚ) (w : ℕ) (aggm : String) (pct : ℚ) :
    List OutRow :=
  maxmeanSelection true scores w aggm pct

/-- A BED4 row of the WIS input: chromosome (as its rank in natural sort
order), start, end, and the score read from the Name column
(source lines 197-201). -/
structure BedRow where
  Chromosome : ℕ
  Start : ℤ
  End : ℤ
  Score : ℚ
deriving DecidableEq, Repr, Inhabited

/-- Half-window shift of the WIS rows (source lines 202-212), applied in the
order the rows were read: row i keeps its chromosome and score, takes Start
from row i - leftShift w and End from row i + rightShift w; rows whose
shifted Start or End is missing are removed by dropna, and rows with
shifted Start >= shifted End are filtered out. -/
def wisShifted (rows : List BedRow) (w : ℕ) : List BedRow :=
  ((List.range rows.length).filterMap (fun i =>
    if leftShift w ≤ i ∧ i + rightShift w < rows.length then
      some { Chromosome := (rows.getD i default).Chromosome
             Start := (rows.getD (i - leftShift w) default).Start
             End := (rows.getD (i + rightShift w) default).End
             Score := (rows.getD i default).Score }
    else none)).filter (fun r => decide (r.Start < r.End))

/-- Row comparison of the WIS sort (source lines 214-220): chromosome in
natural sort order, then Start, then End, ascending. -/
def bedLe (a b : BedRow) : Bool :=
  decide (a.Chromosome < b.Chromosome ∨ (a.Chromosome = b.Chromosome ∧
    (a.Start < b.Start ∨ (a.Start = b.Start ∧ a.End ≤ b.End))))

/-- The shifted interval table sorted the way the WIS selector requires. -/
def wisSorted (rows : List BedRow) (w : ℕ) : List BedRow :=
  sortByB bedLe (wisShifted rows w)

/-- Per-chromosome merged clusters of the original input intervals
(pyranges merge at source line 199): intervals are sorted, and an interval
whose start lies strictly inside the current cluster extends it. -/
def mergeGoAux : ℕ × ℤ × ℤ → List BedRow → List (ℕ × ℤ × ℤ)
  | cur, [] => [cur]
  | (c, s, e), r :: rest =>
    if r.Chromosome = c ∧ r.Start < e then mergeGoAux (c, s, max e r.End) rest
    else (c, s, e) :: mergeGoAux (r.Chromosome, r.Start, r.End) rest

/-- Cluster list of the merged input. -/
def mergeClusters (rows : List BedRow) : List (ℕ × ℤ × ℤ) :=
  match sortByB bedLe rows with
  | [] => []
  | r :: rest => mergeGoAux (r.Chromosome, r.Start, r.End) rest

/-- Cumulative offsets of the clusters (source lines 223-228): the backward
accumulation turns acc_abs into prefix sums of [0, End of cluster 0, End of
cluster 1, ...], so cluster j is offset by the sum of the End coordinates of
all clusters before it. -/
def clusterOffsets (cl : List (ℕ × ℤ × ℤ)) : List ℤ :=
  (List.range cl.length).map (fun j => ((cl.take j).map (fun c => c.2.2)).sum)

/-- The acc dictionary of source line 229: dict(zip(acc_chr, acc_abs)) keeps,
for each chromosome, the offset of its last cluster. -/
def wisAcc (rows : List BedRow) (c : ℕ) : ℤ :=
  ((mergeClusters rows).zip (clusterOffsets (mergeClusters rows))).foldl
    (fun a p => if p.1.1 = c then p.2 else a) 0

/-- Translated absolute start coordinates of the sorted shifted intervals
(source lines 231-237). -/
def wisAbsStarts (rows : List BedRow) (w : ℕ) : List ℤ :=
  (wisSorted rows w).map (fun r => r.Start + wisAcc rows r.Chromosome)

/-- Translated absolute end coordinates of the sorted shifted intervals
(source lines 231-237). -/
def wisAbsEnds (rows : List BedRow) (w : ℕ) : List ℤ :=
  (wisSorted rows w).map (fun r => r.End + wisAcc rows r.Chromosome)

/-- The loop of Python bisect.bisect_right: binary search narrowing [lo, hi)
by comparing the query with the middle element, faithful also on unsorted
arrays. The fuel only bounds the number of halving steps; hi - lo steps are
always enough. -/
def bisectGo (a : List ℤ) (x : ℤ) : ℕ → ℕ → ℕ → ℕ
  | 0, lo, _ => lo
  | fuel + 1, lo, hi =>
    if lo < hi then
      if x < a.getD ((lo + hi) / 2) 0 then bisectGo a x fuel lo ((lo + hi) / 2)
      else bisectGo a x fuel ((lo + hi) / 2 + 1) hi
    else lo

/-- Python bisect.bisect_right as called at source line 241. -/
def bisectRight (a : List ℤ) (x : ℤ) (lo hi : ℕ) : ℕ :=
  bisectGo a x (hi - lo) lo hi

/-- Predecessor table (source lines 239-242):
p[j] = bisect_right(e, s[j]) - 1. -/
def wisPred (rows : List BedRow) (w : ℕ) : List ℤ :=
  (wisAbsStarts rows w).map (fun x =>
    (bisectRight (wisAbsEnds rows w) x 0 (wisAbsEnds rows w).length : ℤ) - 1)

/-- Lookup into the opt table, modelling the defaultdict(int) of source line
244: any key outside the built range, -1 included, reads as 0. -/
def optAt (opt : List ℚ) (i : ℤ) : ℚ :=
  if 0 ≤ i then opt.getD i.toNat 0 else 0

/-- Forward DP pass (source lines 244-250): opt[-1] = opt[0] = 0 and, for
j >= 1, opt[j] = max(score[j] + opt[p[j]], opt[j - 1]). The list holds
opt[0..m-1]; during the pass a not-yet-assigned key reads as 0, exactly as
the defaultdict does. -/
def optBuild (sc : List ℚ) (p : List ℤ) : ℕ → List ℚ
  | 0 => []
  | 1 => [0]
  | j + 2 =>
    let prev := optBuild sc p (j + 1)
    prev ++ [max (sc.getD (j + 1) 0 + optAt prev (p.getD (j + 1) 0))
      (optAt prev (j + 1 - 1))]

/-- The opt table of the WIS selector. -/
def wisOpt (rows : List BedRow) (w : ℕ) : List ℚ :=
  optBuild ((wisSorted rows w).map BedRow.Score) (wisPred rows w)
    (wisSorted rows w).length

/-- Backward trace (source lines 252-261): while j >= 0, include j and jump
to p[j] whenever score[j] + opt[p[j]] > opt[j - 1], else decrement j. The
fuel bounds the iteration count; n steps suffice whenever every predecessor
is smaller than its index. -/
def traceGo (sc : List ℚ) (p : List ℤ) (opt : List ℚ) : ℕ → ℤ → List ℕ
  | 0, _ => []
  | fuel + 1, j =>
    if 0 ≤ j then
      if sc.getD j.toNat 0 + optAt opt (p.getD j.toNat 0) > optAt opt (j - 1)
      then j.toNat :: traceGo sc p opt fuel (p.getD j.toNat 0)
      else traceGo sc p opt fuel (j - 1)
    else []

/-- Indices collected by the backward trace, sorted ascending
(source lines 252-263). -/
def wisTraceIdx (rows : List BedRow) (w : ℕ) : List ℕ :=
  sortByB (fun a b => decide (a ≤ b))
    (traceGo ((wisSorted rows w).map BedRow.Score) (wisPred rows w)
      (wisOpt rows w) (wisSorted rows w).length
      ((wisSorted rows w).length - 1 : ℤ))

/-- The Selection returned by Filter.wis (source lines 262-265): the rows of
the shifted, sorted table at the traced indices. -/
def wisSelection (rows : List BedRow) (w : ℕ) : List BedRow :=
  (wisTraceIdx rows w).filterMap (fun j => (wisSorted rows w)[j]?)

/-- The shifted, clustered interval set in absolute coordinates, as
(start, end, score) triples: the set over which the specification states
DP optimality. -/
def wisCandidatesAbs (rows : List BedRow) (w : ℕ) : List (ℤ × ℤ × ℚ) :=
  (wisAbsStarts rows w).zip ((wisAbsEnds rows w).zip
    ((wisSorted rows w).map BedRow.Score))

/-- Pairwise-disjointness check of a set of weighted intervals. -/
def indepB : List (ℤ × ℤ × ℚ) → Bool
  | [] => true
  | x :: xs =>
    (xs.all (fun y => decide (x.2.1 ≤ y.1 ∨ y.2.1 ≤ x.1))) && indepB xs

/-- Brute-force maximum total score over the non-overlapping subsets of a
weighted interval list (the reference value for the optimality claim). -/
def bruteForceMax (l : List (ℤ × ℤ × ℚ)) : ℚ :=
  ((l.sublists.filter indepB).map (fun sub =>
    (sub.map (fun x => x.2.2)).sum)).foldl max 0

theorem bisectGo_bound (a : List ℤ) (x : ℤ) :
    ∀ fuel lo hi, hi - lo ≤ fuel → lo ≤ hi →
      lo ≤ bisectGo a x fuel lo hi ∧ bisectGo a x fuel lo hi ≤ hi ∧
        (lo < bisectGo a x fuel lo hi →
          a.getD (bisectGo a x fuel lo hi - 1) 0 ≤ x) := by
  intro fuel
  induction fuel with
  | zero =>
      intro lo hi hd hle
      rw [bisectGo]
      exact ⟨le_refl lo, by omega, by omega⟩
  | succ fuel ih =>
      intro lo hi hd hle
      rw [bisectGo]
      split
      next h =>
        split
        next hx =>
          obtain ⟨h1, h2, h3⟩ :=
            ih lo ((lo + hi) / 2) (by omega) (by omega)
          exact ⟨h1, by omega, h3⟩
        next hx =>
          obtain ⟨h1, h2, h3⟩ :=
            ih ((lo + hi) / 2 + 1) hi (by omega) (by omega)
          refine ⟨by omega, h2, fun _ => ?_⟩
          by_cases hmid :
            (lo + hi) / 2 + 1 < bisectGo a x fuel ((lo + hi) / 2 + 1) hi
          · exact h3 hmid
          · have heq : bisectGo a x fuel ((lo + hi) / 2 + 1) hi =
                (lo + hi) / 2 + 1 := by omega
            rw [heq]
            simpa using not_lt.mp hx
      next h =>
        exact ⟨le_refl lo, by omega, by omega⟩

theorem bisectRight_bound (a : List ℤ) (x : ℤ) (lo hi : ℕ) (hle : lo ≤ hi) :
    lo ≤ bisectRight a x lo hi ∧ bisectRight a x lo hi ≤ hi ∧
      (lo < bisectRight a x lo hi →
        a.getD (bisectRight a x lo hi - 1) 0 ≤ x) := by
  rw [bisectRight]
  exact bisectGo_bound a x (hi - lo) lo hi (le_refl _) hle

theorem sorted_getD_mono {l : List ℤ} (hs : List.Sorted (· ≤ ·) l)
    {i j : ℕ} (hij : i ≤ j) (hj : j < l.length) : l.getD i 0 ≤ l.getD j 0 := by
  rcases eq_or_lt_of_le hij with rfl | hlt
  · exact le_refl _
  · have hi : i < l.length := lt_trans hlt hj
    rw [List.getD_eq_getElem l 0 hi, List.getD_eq_getElem l 0 hj]
    have := List.pairwise_iff_get.mp hs ⟨i, hi⟩ ⟨j, hj⟩ hlt
    simpa [List.get_eq_getElem] using this

theorem wisAbsStarts_length (rows : List BedRow) (w : ℕ) :
    (wisAbsStarts rows w).length = (wisSorted rows w).length := by
  simp [wisAbsStarts]

theorem wisAbsEnds_length (rows : List BedRow) (w : ℕ) :
    (wisAbsEnds rows w).length = (wisSorted rows w).length := by
  simp [wisAbsEnds]

/-- Every row of the shifted, sorted WIS table is a valid interval in
absolute coordinates: the filter at source line 210 removes the invalid
rows, and translation adds the same per-chromosome offset to both ends. -/
theorem wisValid (rows : List BedRow) (w : ℕ) :
    ∀ k, (hk : k < (wisSorted rows w).length) →
      (wisAbsStarts rows w).getD k 0 < (wisAbsEnds rows w).getD k 0 := by
  intro k hk
  rw [wisAbsStarts, wisAbsEnds,
    List.getD_eq_getElem _ _ (by simpa using hk),
    List.getD_eq_getElem _ _ (by simpa using hk),
    List.getElem_map, List.getElem_map]
  have hmem : (wisSorted rows w)[k] ∈ wisSorted rows w := List.getElem_mem hk
  have hmem2 := mem_sortByB.mp
    (show (wisSorted rows w)[k] ∈ sortByB bedLe (wisShifted rows w) from hmem)
  have hdec := List.of_mem_filter hmem2
  have hlt : (wisSorted rows w)[k].Start < (wisSorted rows w)[k].End :=
    of_decide_eq_true hdec
  omega

theorem wisPred_length (rows : List BedRow) (w : ℕ) :
    (wisPred rows w).length = (wisSorted rows w).length := by
  simp [wisPred, wisAbsStarts]

/-- The predecessor computed through bisect_right never points at or past its
own interval when the translated ends are sorted, and when it is
nonnegative, the interval it points at ends at or before the current
interval's start. -/
theorem wisPred_facts (rows : List BedRow) (w : ℕ)
    (hmono : List.Sorted (· ≤ ·) (wisAbsEnds rows w)) :
    ∀ k, (hk : k < (wisSorted rows w).length) →
      (wisPred rows w).getD k 0 < (k : ℤ) ∧
      (0 ≤ (wisPred rows w).getD k 0 →
        (wisAbsEnds rows w).getD ((wisPred rows w).getD k 0).toNat 0 ≤
          (wisAbsStarts rows w).getD k 0) := by
  intro k hk
  have hsl : k < (wisAbsStarts rows w).length := by
    rw [wisAbsStarts_length]; exact hk
  have hel : (wisAbsEnds rows w).length = (wisSorted rows w).length :=
    wisAbsEnds_length rows w
  have hpk : (wisPred rows w).getD k 0 =
      (bisectRight (wisAbsEnds rows w) ((wisAbsStarts rows w).getD k 0) 0
        (wisAbsEnds rows w).length : ℤ) - 1 := by
    rw [wisPred, List.getD_eq_getElem _ _ (by simpa using hsl),
      List.getElem_map, List.getD_eq_getElem _ _ hsl]
  obtain ⟨hb1, hb2, hb3⟩ := bisectRight_bound (wisAbsEnds rows w)
    ((wisAbsStarts rows w).getD k 0) 0 (wisAbsEnds rows w).length
    (Nat.zero_le _)
  have hend : 0 ≤ (wisPred rows w).getD k 0 →
      (wisAbsEnds rows w).getD ((wisPred rows w).getD k 0).toNat 0 ≤
        (wisAbsStarts rows w).getD k 0 := by
    intro hge
    have hpos : 0 < bisectRight (wisAbsEnds rows w)
        ((wisAbsStarts rows w).getD k 0) 0 (wisAbsEnds rows w).length := by
      omega
    have := hb3 hpos
    have htn : ((wisPred rows w).getD k 0).toNat =
        bisectRight (wisAbsEnds rows w) ((wisAbsStarts rows w).getD k 0) 0
          (wisAbsEnds rows w).length - 1 := by
      omega
    rw [htn]
    exact this
  refine ⟨?_, hend⟩
  by_contra hc
  push_neg at hc
  have hge : 0 ≤ (wisPred rows w).getD k 0 := le_trans (Int.ofNat_nonneg k) hc
  have h1 := hend hge
  have htn2 : k ≤ ((wisPred rows w).getD k 0).toNat := by omega
  have htn3 : ((wisPred rows w).getD k 0).toNat < (wisAbsEnds rows w).length := by
    omega
  have h2 := sorted_getD_mono hmono htn2 htn3
  have h3 := wisValid rows w k hk
  omega

/-- Every index produced by the backward trace lies at or left of the current
index and inside [0, n). -/
theorem traceGo_le (sc : List ℚ) (p : List ℤ) (opt : List ℚ) (n : ℕ)
    (hp : ∀ k, k < n → p.getD k 0 < (k : ℤ)) :
    ∀ fuel (j : ℤ), j < (n : ℤ) →
      ∀ x ∈ traceGo sc p opt fuel j, (x : ℤ) ≤ j ∧ x < n := by
  intro fuel
  induction fuel with
  | zero => intro j hj x hx; simp [traceGo] at hx
  | succ fuel ih =>
      intro j hj x hx
      rw [traceGo] at hx
      by_cases h0 : (0 : ℤ) ≤ j
      · rw [if_pos h0] at hx
        have hjn : j.toNat < n := by omega
        by_cases hc : sc.getD j.toNat 0 + optAt opt (p.getD j.toNat 0) >
            optAt opt (j - 1)
        · rw [if_pos hc] at hx
          rcases List.mem_cons.mp hx with h | h
          · subst h; constructor <;> omega
          · have hpj : p.getD j.toNat 0 < (n : ℤ) := by
              have := hp j.toNat hjn
              omega
            have := ih (p.getD j.toNat 0) hpj x h
            have hpe := hp j.toNat hjn
            constructor <;> omega
        · rw [if_neg hc] at hx
          have := ih (j - 1) (by omega) x hx
          constructor <;> omega
      · rw [if_neg h0] at hx
        simp at hx

/-- Any later-included trace index lies at or left of the predecessor of any
earlier-included one: the chain structure of the backward trace. -/
theorem traceGo_chain (sc : List ℚ) (p : List ℤ) (opt : List ℚ) (n : ℕ)
    (hp : ∀ k, k < n → p.getD k 0 < (k : ℤ)) :
    ∀ fuel (j : ℤ), j < (n : ℤ) →
      ∀ x ∈ traceGo sc p opt fuel j, ∀ y ∈ traceGo sc p opt fuel j,
        (y : ℤ) < (x : ℤ) → (y : ℤ) ≤ p.getD x 0 := by
  intro fuel
  induction fuel with
  | zero => intro j hj x hx; simp [traceGo] at hx
  | succ fuel ih =>
      intro j hj x hx y hy hyx
      rw [traceGo] at hx hy
      by_cases h0 : (0 : ℤ) ≤ j
      · rw [if_pos h0] at hx hy
        have hjn : j.toNat < n := by omega
        have hpj : p.getD j.toNat 0 < (n : ℤ) := by
          have := hp j.toNat hjn
          omega
        by_cases hc : sc.getD j.toNat 0 + optAt opt (p.getD j.toNat 0) >
            optAt opt (j - 1)
        · rw [if_pos hc] at hx hy
          rcases List.mem_cons.mp hx with h1 | h1 <;>
            rcases List.mem_cons.mp hy with h2 | h2
          · subst h1; subst h2; omega
          · subst h1
            have := traceGo_le sc p opt n hp fuel (p.getD j.toNat 0) hpj y h2
            exact this.1
          · subst h2
            have := traceGo_le sc p opt n hp fuel (p.getD j.toNat 0) hpj x h1
            have hpe := hp j.toNat hjn
            omega
          · exact ih (p.getD j.toNat 0) hpj x h1 y h2 hyx
        · rw [if_neg hc] at hx hy
          exact ih (j - 1) (by omega) x hx y hy hyx
      · rw [if_neg h0] at hx
        simp at hx

/-- The stored input table self.input_df: Start/End columns with possible
missing values, the Score column, and the OriginalIdx column if it has been
added. -/
structure DFState where
  Start : List (Option ℤ)
  End : List (Option ℤ)
  Score : List ℚ
  OriginalIdx : Option (List ℕ)
deriving DecidableEq, Repr

/-- The table Filter.read builds for vector input (source lines 137-143):
Start = index, End = index + 1, no OriginalIdx column. -/
def readVector (scores : List ℚ) : DFState :=
  { Start := (List.range scores.length).map (fun i => some (i : ℤ))
    End := (List.range scores.length).map (fun i => some ((i : ℤ) + 1))
    Score := scores
    OriginalIdx := none }

/-- pandas Series.shift(k) for k >= 0: the first k entries become missing. -/
def shiftDown (k : ℕ) (l : List (Option ℤ)) : List (Option ℤ) :=
  List.replicate (min k l.length) none ++ l.take (l.length - k)

/-- pandas Series.shift(-k) for k >= 0: the last k entries become missing. -/
def shiftUp (k : ℕ) (l : List (Option ℤ)) : List (Option ℤ) :=
  l.drop k ++ List.replicate (min k l.length) none

/-- The in-place mutation Filter.maxmean performs on self.input_df before the
first dropna rebinds its local df variable (source lines 268-277): the
OriginalIdx column is added and the Start and End columns are overwritten
with their half-window-shifted versions. Everything after line 278 operates
on fresh frames, so this is the final state of self.input_df. -/
def maxmeanMutate (w : ℕ) (st : DFState) : DFState :=
  { st with
    OriginalIdx := some (List.range st.Score.length)
    Start := shiftDown (leftShift w) st.Start
    End := shiftUp (rightShift w) st.End }

/-- Witness for C2: a concrete run (w = 3, n = 5, candidates ordered
[4, 2, 1, 3, 0]) accepts bins 1 and 4, which are window_bins apart. -/
theorem sweepGo_separation_witness :
    1 ∈ sweepGo 3 5 [4, 2, 1, 3, 0] ∅ 5 ∧
    4 ∈ sweepGo 3 5 [4, 2, 1, 3, 0] ∅ 5 ∧ 1 + 3 ≤ 4 :=
  ⟨by decide, by decide,
    sweepGo_separation 3 5 5 [4, 2, 1, 3, 0] (by decide) (by decide) 1 4
      (by decide) (by decide) (by decide)⟩

/-- C7 counterexample: an override of -3 is below 1 yet is used verbatim, and
an override of 0 is below 1 yet silently replaced by the derived default 125;
no InvalidConfigError exists on this path, contradicting the claim that any
override below 1 fails. -/
theorem effectiveWindowBins_no_error_counterexample :
    effectiveWindowBins (some (-3)) 200 24800 = Except.ok (-3) ∧
    effectiveWindowBins (some 0) 200 24800 = Except.ok 125 := by
  exact ⟨rfl, rfl⟩

/-- C7 (amended): an explicit nonzero override, negative values included, is
used verbatim without validation; an override of 0 (like None) is replaced by
(bin_size + exclusion_size) // bin_size; no error is ever raised. -/
theorem effectiveWindowBins_override_verbatim (o bin_size exclusion_size : ℤ)
    (h : o ≠ 0) :
    effectiveWindowBins (some o) bin_size exclusion_size = Except.ok o := by
  simp [effectiveWindowBins, h]

/-- Witness for the amended C7 at override 7. -/
theorem effectiveWindowBins_override_verbatim_witness :
    (7 : ℤ) ≠ 0 ∧ effectiveWindowBins (some 7) 200 24800 = Except.ok 7 :=
  ⟨by decide, effectiveWindowBins_override_verbatim 7 200 24800 (by decide)⟩

/-- C8: the greedy sweep pipeline never returns more than MAX_ELEMENTS
(100,000) rows: the capacity counter is seeded from the cap, decremented on
each acceptance, and the scan stops when it reaches zero. -/
theorem maxmeanSelection_length_le (pqFlag : Bool) (scores : List ℚ) (w : ℕ)
    (aggm : String) (pct : ℚ) :
    (maxmeanSelection pqFlag scores w aggm pct).length ≤ MAX_ELEMENTS := by
  rw [maxmeanSelection, length_sortByB, List.length_map]
  exact le_trans (List.length_filterMap_le _ _) (sweepGo_length_le _ _ _ _ _)

/-- C9: for vector input with window w >= 2, the maxmean/pq pipeline returns
an empty Selection whenever the input length is at most 2w - 2: the
half-window shift drops w - 1 edge rows and the rolling pass drops w - 1
more, so no candidate survives. -/
theorem maxmeanSelection_empty_of_short (pqFlag : Bool) (scores : List ℚ)
    (w : ℕ) (aggm : String) (pct : ℚ) (hw : 2 ≤ w)
    (hn : scores.length ≤ 2 * w - 2) :
    maxmeanSelection pqFlag scores w aggm pct = [] := by
  have h2 : leftShift w + rightShift w = w - 1 := by
    rw [leftShift, rightShift]
    split_ifs <;> omega
  have h1 : (trimmedScores scores w).length =
      scores.length - rightShift w - leftShift w := by
    simp only [trimmedScores, List.length_drop, List.length_take]
    omega
  have hc : maxmeanCands scores w pct = [] := by
    rw [maxmeanCands, if_neg (by omega)]
    have hm : (trimmedScores scores w).length + 1 - w = 0 := by omega
    rw [hm]
    rfl
  have hsnil : sortCands pqFlag ([] : List Cand) = [] := by
    cases pqFlag <;> rfl
  rw [maxmeanSelection, hc, hsnil]
  rfl

/-- Witness for C9: a length-2 vector with window 2 yields an empty
Selection. -/
theorem maxmeanSelection_empty_of_short_witness :
    2 ≤ 2 ∧ ([(5 : ℚ), 7].length ≤ 2 * 2 - 2) ∧
    maxmeanSelection false [(5 : ℚ), 7] 2 "max" (19 / 20) = [] :=
  ⟨by decide, by decide,
    maxmeanSelection_empty_of_short false [(5 : ℚ), 7] 2 "max" (19 / 20)
      (by decide) (by decide)⟩

/-- Vector input of the C4 counterexample. -/
def pqExample : List ℚ := [0, 0, 1, 6, 7, 2, 9, 0, 0]

/-- C4 counterexample: in PQ mode with the default aggregation method max,
the selected bin at original index 3 has raw input score 6 but output score
7 (its 3-wide rolling max), so PQ mode does not retain the raw score. -/
theorem pq_score_changed_counterexample :
    (pqSelection pqExample 3 "max" (19 / 20)).map
        (fun r => (r.OriginalIdx, r.Score)) = [(3, 7), (6, 9)] ∧
    pqExample.getD 3 0 = 6 ∧ ((7 : ℚ) ≠ 6) := by
  refine ⟨by decide, by decide, by decide⟩

/-- C4 (amended): the aggregation assignment of source lines 342-355 runs in
PQ mode as well, so with aggregation max every selected row's output score is
the rolling max of its window (in general different from the raw score);
only the priority key distinguishes PQ mode from Max-Mean mode. -/
theorem pq_output_score_is_rolling_aggregate (scores : List ℚ) (w : ℕ)
    (pct : ℚ) (r : OutRow) (hr : r ∈ pqSelection scores w "max" pct) :
    ∃ c ∈ maxmeanCands scores w pct,
      r.OriginalIdx = c.OriginalIdx ∧ r.Score = c.RollingMax := by
  rw [pqSelection, maxmeanSelection] at hr
  have hr2 := mem_sortByB.mp hr
  rcases List.mem_map.mp hr2 with ⟨c, hc, hce⟩
  rcases List.mem_filterMap.mp hc with ⟨j, hj, hjc⟩
  refine ⟨c, ?_, ?_, ?_⟩
  · exact List.getElem?_mem hjc
  · rw [← hce]
    rfl
  · rw [← hce]
    simp [applyAgg]

/-- Witness for the amended C4: the selected row of pqExample at original
index 3 carries the rolling max 7 of its candidate. -/
theorem pq_output_score_is_rolling_aggregate_witness :
    (⟨2, 5, 7, 3⟩ : OutRow) ∈ pqSelection pqExample 3 "max" (19 / 20) ∧
    ∃ c ∈ maxmeanCands pqExample 3 (19 / 20),
      (⟨2, 5, 7, 3⟩ : OutRow).OriginalIdx = c.OriginalIdx ∧
      (⟨2, 5, 7, 3⟩ : OutRow).Score = c.RollingMax :=
  ⟨by decide,
    pq_output_score_is_rolling_aggregate pqExample 3 (19 / 20) ⟨2, 5, 7, 3⟩
      (by decide)⟩

/-- Vector input of the specification's end-to-end example (C5). -/
def maxmeanExample : List ℚ := [1, 2, 5, 10, 5, 5, 4, 8, 2, 1, 10, 1, 1, 1, 5]

/-- C5 counterexample: on the example vector with window_bins 3 and
aggregation max, the Selection is not the claimed indices {3, 7, 10, 14}
with scores 10, 8, 10, 5. -/
theorem maxmean_example_counterexample :
    (maxmeanSelection false maxmeanExample 3 "max" (19 / 20)).map
        (fun r => (r.OriginalIdx, r.Score)) ≠
      [(3, 10), (7, 8), (10, 10), (14, 5)] := by
  with_unfolding_all decide

/-- C5 (amended): the Selection on the example vector consists of the bins at
original indices 3, 6, 9 and 12 with output scores 10, 8, 10 and 1 (each
bin's 3-wide rolling max) and shifted bounds [2,5), [5,8), [8,11), [11,14);
every other bin is suppressed by the window constraint. -/
theorem maxmean_example_selection :
    maxmeanSelection false maxmeanExample 3 "max" (19 / 20) =
      [⟨2, 5, 10, 3⟩, ⟨5, 8, 8, 6⟩, ⟨8, 11, 10, 9⟩, ⟨11, 14, 1, 12⟩] := by
  with_unfolding_all decide

/-- C10: Filter.maxmean (and therefore Filter.pq) mutates the stored input
table in place: it adds the OriginalIdx column and overwrites Start and End
with their half-window-shifted versions, so after filtering self.input_df
differs from the table read() produced. -/
theorem maxmeanMutate_changes_input_df (scores : List ℚ) (w : ℕ) :
    maxmeanMutate w (readVector scores) ≠ readVector scores ∧
    (maxmeanMutate w (readVector scores)).OriginalIdx =
      some (List.range scores.length) ∧
    (maxmeanMutate w (readVector scores)).Start =
      shiftDown (leftShift w) (readVector scores).Start ∧
    (maxmeanMutate w (readVector scores)).End =
      shiftUp (rightShift w) (readVector scores).End := by
  refine ⟨?_, rfl, rfl, rfl⟩
  intro h
  have h2 := congrArg DFState.OriginalIdx h
  simp [maxmeanMutate, readVector] at h2

/-- Bedgraph input of the C1 failing input: interval 0 overlaps interval 1,
interval 2 is disjoint from both. -/
def wisOptExample : List BedRow :=
  [⟨1, 0, 100, 10⟩, ⟨1, 10, 150, 1⟩, ⟨1, 200, 300, 5⟩]

/-- C1: with window_bins 1 (no shift) the WIS selector returns the intervals
at sorted indices 1 and 2 with total score 6, while the maximum total score
of a non-overlapping subset of the same translated interval set is 15
(intervals 0 and 2): the DP with opt[0] = 0 ignores interval 0's score, so
the trace is not a maximum-weight independent set. -/
theorem wis_suboptimal_on_failing_input :
    wisTraceIdx wisOptExample 1 = [1, 2] ∧
    ((wisSelection wisOptExample 1).map BedRow.Score).sum = 6 ∧
    bruteForceMax (wisCandidatesAbs wisOptExample 1) = 15 ∧
    ((6 : ℚ) < 15) := by
  refine ⟨by with_unfolding_all decide, by with_unfolding_all decide, by with_unfolding_all decide, by with_unfolding_all decide⟩

/-- Bedgraph input of the C3 counterexample: a long interval nests a tiny
zero-score interval, making the translated end array unsorted. -/
def wisNestedExample : List BedRow :=
  [⟨1, 0, 650, 3⟩, ⟨1, 10, 20, 0⟩, ⟨1, 600, 700, 5⟩]

/-- C3 counterexample: on nested input the bisect-based predecessor search
runs on an unsorted end array and the trace selects intervals 0 and 2 of the
same chromosome, which overlap in absolute coordinates (600 < 650), so the
selected intervals are not pairwise non-overlapping. -/
theorem wis_selected_overlap_counterexample :
    0 ∈ wisTraceIdx wisNestedExample 1 ∧ 2 ∈ wisTraceIdx wisNestedExample 1 ∧
    (wisAbsStarts wisNestedExample 1).getD 2 0 <
      (wisAbsEnds wisNestedExample 1).getD 0 0 := by
  refine ⟨by with_unfolding_all decide, by with_unfolding_all decide, by with_unfolding_all decide⟩

/-- C3 (amended): whenever the translated end coordinates of the shifted,
sorted interval table are non-decreasing (no nesting survives the shift),
any two selected intervals are non-overlapping in the absolute coordinate
space: the earlier one ends at or before the later one starts. -/
theorem wis_selected_pairwise_disjoint (rows : List BedRow) (w : ℕ)
    (hmono : List.Sorted (· ≤ ·) (wisAbsEnds rows w)) (a b : ℕ)
    (ha : a ∈ wisTraceIdx rows w) (hb : b ∈ wisTraceIdx rows w)
    (hab : a < b) :
    (wisAbsEnds rows w).getD a 0 ≤ (wisAbsStarts rows w).getD b 0 := by
  have hp : ∀ k, k < (wisSorted rows w).length →
      (wisPred rows w).getD k 0 < (k : ℤ) :=
    fun k hk => (wisPred_facts rows w hmono k hk).1
  rw [wisTraceIdx] at ha hb
  have ha2 := mem_sortByB.mp ha
  have hb2 := mem_sortByB.mp hb
  have hstart : ((wisSorted rows w).length : ℤ) - 1 <
      ((wisSorted rows w).length : ℤ) := by omega
  have hbn : b < (wisSorted rows w).length :=
    (traceGo_le _ _ _ _ hp _ _ hstart b hb2).2
  have hchain := traceGo_chain _ _ _ _ hp _ _ hstart b hb2 a ha2
    (by exact_mod_cast hab)
  have hfacts := wisPred_facts rows w hmono b hbn
  have hge : 0 ≤ (wisPred rows w).getD b 0 :=
    le_trans (Int.ofNat_nonneg a) hchain
  have hend := hfacts.2 hge
  have hlt := hfacts.1
  have hmono2 : (wisAbsEnds rows w).getD a 0 ≤
      (wisAbsEnds rows w).getD ((wisPred rows w).getD b 0).toNat 0 := by
    apply sorted_getD_mono hmono (by omega)
    rw [wisAbsEnds_length]
    omega
  exact le_trans hmono2 hend

/-- Bedgraph input of the C3 witness: two disjoint intervals on one
chromosome. -/
def wisDisjointExample : List BedRow := [⟨1, 0, 100, 5⟩, ⟨1, 200, 300, 7⟩]

/-- Witness for the amended C3: both intervals of wisDisjointExample are
selected and do not overlap in absolute coordinates. -/
theorem wis_selected_pairwise_disjoint_witness :
    List.Sorted (· ≤ ·) (wisAbsEnds wisDisjointExample 1) ∧
    0 ∈ wisTraceIdx wisDisjointExample 1 ∧
    1 ∈ wisTraceIdx wisDisjointExample 1 ∧
    (wisAbsEnds wisDisjointExample 1).getD 0 0 ≤
      (wisAbsStarts wisDisjointExample 1).getD 1 0 :=
  ⟨by with_unfolding_all decide, by with_unfolding_all decide, by with_unfolding_all decide,
    wis_selected_pairwise_disjoint wisDisjointExample 1 (by with_unfolding_all decide) 0 1
      (by with_unfolding_all decide) (by with_unfolding_all decide) (by with_unfolding_all decide)⟩

/-- Bedgraph input of the C6 counterexample. -/
def wisShiftExample : List BedRow :=
  [⟨1, 0, 150, 5⟩, ⟨1, 100, 250, 7⟩, ⟨1, 300, 400, 1⟩]

/-- C6 counterexample: with window_bins 2 the Selection is the single row
(100, 400), whose boundaries match no original input interval: the selected
row came from the input interval [300, 400) but is returned with its
half-window-shifted boundaries, not the pre-shift ones. -/
theorem wis_selection_shifted_bounds_counterexample :
    wisSelection wisShiftExample 2 = [⟨1, 100, 400, 1⟩] ∧
    ∀ r ∈ wisShiftExample, ¬(r.Start = 100 ∧ r.End = 400) := by
  refine ⟨by with_unfolding_all decide, by with_unfolding_all decide⟩

/-- C6 (amended): the backward trace collects indices, sorts them ascending,
and returns the corresponding rows of the shifted, sorted table: every
Selection row carries the half-window-shifted boundaries, with no mapping
back to the pre-shift interval boundaries. -/
theorem wisSelection_rows_from_shifted_sorted (rows : List BedRow) (w : ℕ)
    (r : BedRow) (hr : r ∈ wisSelection rows w) : r ∈ wisSorted rows w := by
  rw [wisSelection] at hr
  rcases List.mem_filterMap.mp hr with ⟨j, hj, hjr⟩
  exact List.getElem?_mem hjr

/-- Witness for the amended C6: the selected row of wisShiftExample is a row
of the shifted, sorted table. -/
theorem wisSelection_rows_from_shifted_sorted_witness :
    (⟨1, 100, 400, 1⟩ : BedRow) ∈ wisSelection wisShiftExample 2 ∧
    (⟨1, 100, 400, 1⟩ : BedRow) ∈ wisSorted wisShiftExample 2 :=
  ⟨by with_unfolding_all decide,
    wisSelection_rows_from_shifted_sorted wisShiftExample 2 ⟨1, 100, 400, 1⟩
      (by with_unfolding_all decide)⟩

end FilterRegions
